import Mathlib

/-!
Verification of the combinatorial screening-and-inference engine of the
ToeholdTools repository (`thtools`): the trigger-set builder and
binding-site detection (`thtools/utils.py`) and the temperature-sweep
result object (`thtools/crt.py`).

Python sequences are modelled as Lean lists, Python strings as `List Char`
(or `String` for opaque sequence data), Python floats as `ℚ` (the code
under verification only moves the numbers around, so exact arithmetic is a
faithful model), and fallible Python code as `Except`/`Option` values or
explicit error flags.
-/

namespace THTools

/-! ## Trigger-set builder (`thtools/utils.py`, `_combs`)

`_combs(a, r)` is implemented as
`np.fromiter(itertools.combinations(a, r), dt).view(a.dtype).reshape(-1, r)`.
The struct-dtype view/reshape is content preserving for `r ≥ 1`, so the
function's value is exactly `list(itertools.combinations(a, r))` : all
r-length index-combinations of `a` in lexicographic-by-index order.
`combinations` below is the documented recursion of
`itertools.combinations`. -/

def combinations {α : Type} : List α → Nat → List (List α)
  | _, 0 => [[]]
  | [], _ + 1 => []
  | x :: xs, r + 1 =>
      ((combinations xs r).map (fun c => x :: c)) ++ combinations xs (r + 1)

/-- `thtools.utils._combs`: the trigger-set builder.  For `r > len a` the
iterator is empty and the reshape yields a `(0, r)` array, i.e. the empty
list of combinations; no code path raises. -/
def _combs {α : Type} (a : List α) (r : Nat) : List (List α) :=
  combinations a r

theorem combinations_length {α : Type} (l : List α) (r : Nat) :
    (combinations l r).length = l.length.choose r := by
  induction l generalizing r with
  | nil =>
    cases r with
    | zero => simp [combinations]
    | succ r => simp [combinations, Nat.choose]
  | cons x xs ih =>
    cases r with
    | zero => simp [combinations]
    | succ r =>
      simp [combinations, List.length_append, List.length_map, ih,
        Nat.choose_succ_succ, Nat.add_comm]

theorem length_of_mem_combinations {α : Type} {l : List α} {r : Nat}
    {c : List α} (h : c ∈ combinations l r) : c.length = r := by
  induction l generalizing r c with
  | nil =>
    cases r with
    | zero => simp [combinations] at h; simp [h]
    | succ r => simp [combinations] at h
  | cons x xs ih =>
    cases r with
    | zero => simp [combinations] at h; simp [h]
    | succ r =>
      simp only [combinations, List.mem_append, List.mem_map] at h
      rcases h with ⟨c', hc', rfl⟩ | h
      · simp [ih hc']
      · exact ih h

theorem sublist_of_mem_combinations {α : Type} {l : List α} {r : Nat}
    {c : List α} (h : c ∈ combinations l r) : c.Sublist l := by
  induction l generalizing r c with
  | nil =>
    cases r with
    | zero => simp [combinations] at h; simp [h]
    | succ r => simp [combinations] at h
  | cons x xs ih =>
    cases r with
    | zero => simp [combinations] at h; simp [h]
    | succ r =>
      simp only [combinations, List.mem_append, List.mem_map] at h
      rcases h with ⟨c', hc', rfl⟩ | h
      · exact List.Sublist.cons₂ x (ih hc')
      · exact List.Sublist.cons x (ih h)

theorem mem_combinations_of_sublist {α : Type} {l : List α} {c : List α}
    (hs : c.Sublist l) : c ∈ combinations l c.length := by
  induction hs with
  | slnil => simp [combinations]
  | @cons l₁ l₂ a hs ih =>
    cases l₁ with
    | nil => simp [combinations]
    | cons y ys =>
      simp only [List.length_cons, combinations, List.mem_append]
      exact Or.inr (by simpa using ih)
  | @cons₂ l₁ l₂ a hs ih =>
    simp only [List.length_cons, combinations, List.mem_append, List.mem_map]
    exact Or.inl ⟨_, ih, rfl⟩

theorem mem_combinations_iff {α : Type} (l : List α) (r : Nat) (c : List α) :
    c ∈ combinations l r ↔ c.Sublist l ∧ c.length = r := by
  constructor
  · intro h
    exact ⟨sublist_of_mem_combinations h, length_of_mem_combinations h⟩
  · rintro ⟨hs, rfl⟩
    exact mem_combinations_of_sublist hs

theorem combinations_map {α β : Type} (f : α → β) (l : List α) (r : Nat) :
    combinations (l.map f) r = (combinations l r).map (List.map f) := by
  induction l generalizing r with
  | nil =>
    cases r with
    | zero => simp [combinations]
    | succ r => simp [combinations]
  | cons x xs ih =>
    cases r with
    | zero => simp [combinations]
    | succ r =>
      simp [combinations, ih, List.map_map]

theorem combinations_nodup {α : Type} {l : List α} (hl : l.Nodup) (r : Nat) :
    (combinations l r).Nodup := by
  induction l generalizing r with
  | nil =>
    cases r with
    | zero => simp [combinations]
    | succ r => simp [combinations]
  | cons x xs ih =>
    cases r with
    | zero => simp [combinations]
    | succ r =>
      have hx : x ∉ xs := (List.nodup_cons.mp hl).1
      have hxs : xs.Nodup := (List.nodup_cons.mp hl).2
      simp only [combinations]
      apply List.Nodup.append
      · exact (ih hxs r).map (fun a b h => by simpa using h)
      · exact ih hxs (r + 1)
      · intro c hc1 hc2
        rcases List.mem_map.mp hc1 with ⟨c', _, rfl⟩
        have hsub := sublist_of_mem_combinations hc2
        have : x ∈ xs := hsub.subset (List.mem_cons_self x c')
        exact hx this

theorem getD_range_map {α : Type} (l : List α) (d : α) :
    (List.range l.length).map (fun i => l.getD i d) = l := by
  induction l with
  | nil => simp
  | cons x xs ih =>
    rw [List.length_cons, List.range_succ_eq_map]
    simp only [List.map_cons, List.map_map]
    have h2 : ∀ i ∈ List.range xs.length,
        ((fun i => (x :: xs).getD i d) ∘ (· + 1)) i = xs.getD i d :=
      fun i _ => rfl
    rw [List.map_congr_left h2, ih]
    rfl

/-! ## Binding-site detection (`thtools/utils.py`, `find_rbs`)

`find_rbs(ths, rbs, mult_check)` uppercases both strings, optionally
asserts `ths.count(rbs) <= 1` (Python `str.count`: greedy non-overlapping
occurrences, scanning left to right) and returns
`slice(i, i + len(rbs))` for `i = ths.rindex(rbs)` (the right-most match,
`ValueError` when there is none). -/

def upperStr (s : List Char) : List Char := s.map Char.toUpper

/-- Python `str.count` scan for a nonempty pattern: each match consumes
`sub.length` characters (non-overlapping).  Structural recursion on a fuel
argument; every step consumes at least one character, so fuel
`s.length` never runs out before the string does. -/
def strCountAux (sub : List Char) : Nat → List Char → Nat
  | 0, _ => 0
  | _ + 1, [] => 0
  | fuel + 1, c :: rest =>
    if sub.isPrefixOf (c :: rest) then
      1 + strCountAux sub fuel (rest.drop (sub.length - 1))
    else strCountAux sub fuel rest

/-- Python `str.count`; the empty pattern counts `len(s) + 1` matches. -/
def strCount (s sub : List Char) : Nat :=
  if sub.isEmpty then s.length + 1 else strCountAux sub s.length s

/-- Whether `sub` matches `s` at position `i` (a full-length occurrence). -/
def matchAt (s sub : List Char) (i : Nat) : Bool := sub.isPrefixOf (s.drop i)

/-- Python `str.rindex`: the largest match position, if any. -/
def strRindex (s sub : List Char) : Option Nat :=
  ((List.range (s.length + 1)).filter (fun i => matchAt s sub i)).getLast?

/-- The number of (possibly overlapping) positions at which `sub` occurs in
`s`.  This formalizes the specification phrase "occurs more than once"; it
is **not** how the code counts (`str.count` is non-overlapping). -/
def occurrenceCount (s sub : List Char) : Nat :=
  ((List.range (s.length + 1)).filter (fun i => matchAt s sub i)).length

inductive FindErr where
  | valueError
  | assertionError
deriving DecidableEq

instance {ε α : Type} [DecidableEq ε] [DecidableEq α] :
    DecidableEq (Except ε α) := fun a b =>
  match a, b with
  | .error e, .error f =>
    if h : e = f then isTrue (by rw [h])
    else isFalse (by intro hc; cases hc; exact h rfl)
  | .ok x, .ok y =>
    if h : x = y then isTrue (by rw [h])
    else isFalse (by intro hc; cases hc; exact h rfl)
  | .error _, .ok _ => isFalse (by intro hc; cases hc)
  | .ok _, .error _ => isFalse (by intro hc; cases hc)

/-- `thtools.utils.find_rbs`: returns the half-open span of the last
occurrence of the (uppercased) RBS in the (uppercased) switch; in strict
mode it first asserts that the non-overlapping occurrence count is at most
one. -/
def find_rbs (ths rbs : List Char) (mult_check : Bool) : Except FindErr (Nat × Nat) :=
  let T := upperStr ths
  let R := upperStr rbs
  if mult_check = true ∧ 1 < strCount T R then Except.error FindErr.assertionError
  else
    match strRindex T R with
    | none => Except.error FindErr.valueError
    | some i => Except.ok (i, i + R.length)

theorem mem_of_getLast?_eq_some {α : Type} {l : List α} {a : α}
    (h : l.getLast? = some a) : a ∈ l := by
  rcases List.mem_getLast?_eq_getLast (Option.mem_def.mpr h) with ⟨hne, rfl⟩
  exact List.getLast_mem hne

theorem getLast?_le_of_pairwise_lt {l : List Nat} (hl : l.Pairwise (· < ·))
    {a : Nat} (ha : l.getLast? = some a) {b : Nat} (hb : b ∈ l) : b ≤ a := by
  induction l with
  | nil => simp at hb
  | cons x xs ih =>
    cases xs with
    | nil =>
      simp at ha hb
      omega
    | cons y ys =>
      rw [List.getLast?_cons_cons] at ha
      rcases List.mem_cons.mp hb with rfl | hb2
      · have hy : y ∈ y :: ys := List.mem_cons_self y ys
        have hxa : b < a := by
          have := (List.pairwise_cons.mp hl).1
          have hmem : a ∈ y :: ys := mem_of_getLast?_eq_some ha
          exact (List.pairwise_cons.mp hl).1 a hmem
        omega
      · exact ih (List.pairwise_cons.mp hl).2 ha hb2

theorem strRindex_some {s sub : List Char} {i : Nat}
    (h : strRindex s sub = some i) :
    matchAt s sub i = true ∧ i ≤ s.length ∧
      ∀ j, j ≤ s.length → matchAt s sub j = true → j ≤ i := by
  have hmem : i ∈ (List.range (s.length + 1)).filter (fun k => matchAt s sub k) :=
    mem_of_getLast?_eq_some h
  have hp : (List.range (s.length + 1)).Pairwise (· < ·) := List.pairwise_lt_range _
  have hpf := hp.filter (fun k => matchAt s sub k)
  refine ⟨(List.mem_filter.mp hmem).2, ?_, ?_⟩
  · have := List.mem_range.mp (List.mem_filter.mp hmem).1
    omega
  · intro j hj hmj
    have hjmem : j ∈ (List.range (s.length + 1)).filter (fun k => matchAt s sub k) :=
      List.mem_filter.mpr ⟨List.mem_range.mpr (by omega), hmj⟩
    exact getLast?_le_of_pairwise_lt hpf h hjmem

theorem strRindex_none {s sub : List Char}
    (h : occurrenceCount s sub = 0) : strRindex s sub = none := by
  unfold occurrenceCount at h
  unfold strRindex
  rw [List.length_eq_zero] at h
  rw [h]
  rfl

/-! ## Claims about the trigger-set builder and binding-site detection -/

/-- C1: for a collection of `n` triggers and a set size `r` with
`1 ≤ r ≤ n`, `_combs` returns exactly `C(n, r)` trigger sets, each of size
`r`, covering every r-combination of the input (exactly once at the index
level), in the order of the lexicographic-by-index combination enumeration
of `0..n-1`: its output is the index-combination enumeration mapped through
the input. -/
theorem c1_combs_builder {α : Type} (a : List α) (r : Nat) (d : α)
    (_h1 : 1 ≤ r) (_h2 : r ≤ a.length) :
    (_combs a r).length = a.length.choose r ∧
    (∀ c ∈ _combs a r, c.length = r) ∧
    (∀ c, c ∈ _combs a r ↔ c.Sublist a ∧ c.length = r) ∧
    _combs a r
      = (combinations (List.range a.length) r).map (List.map (fun i => a.getD i d)) ∧
    (combinations (List.range a.length) r).Nodup := by
  refine ⟨combinations_length a r, ?_, ?_, ?_, ?_⟩
  · intro c hc
    exact length_of_mem_combinations hc
  · intro c
    exact mem_combinations_iff a r c
  · have hmap := combinations_map (fun i => a.getD i d) (List.range a.length) r
    rw [getD_range_map a d] at hmap
    exact hmap
  · exact combinations_nodup (List.nodup_range _) r

theorem c1_combs_builder_witness :
    (1 ≤ 2 ∧ 2 ≤ ([10, 20, 30] : List Nat).length) ∧
    ((_combs ([10, 20, 30] : List Nat) 2).length
        = ([10, 20, 30] : List Nat).length.choose 2 ∧
     (∀ c ∈ _combs ([10, 20, 30] : List Nat) 2, c.length = 2) ∧
     (∀ c, c ∈ _combs ([10, 20, 30] : List Nat) 2
        ↔ c.Sublist [10, 20, 30] ∧ c.length = 2) ∧
     _combs ([10, 20, 30] : List Nat) 2
       = (combinations (List.range ([10, 20, 30] : List Nat).length) 2).map
           (List.map (fun i => ([10, 20, 30] : List Nat).getD i 0)) ∧
     (combinations (List.range ([10, 20, 30] : List Nat).length) 2).Nodup) :=
  ⟨⟨by decide, by decide⟩, c1_combs_builder [10, 20, 30] 2 0 (by decide) (by decide)⟩

/-- C7 counterexample: the claim says that for `r > n` the builder raises.
In the code, `itertools.combinations` is simply empty and the
view/reshape produces a `(0, r)` array: `_combs` returns the empty
sequence of combinations and no error is raised on this path. -/
theorem c7_counterexample : _combs (["AAA"] : List String) 2 = [] := rfl

theorem combinations_eq_nil_of_lt {α : Type} {l : List α} {r : Nat}
    (h : l.length < r) : combinations l r = [] := by
  induction l generalizing r with
  | nil =>
    cases r with
    | zero => omega
    | succ r => rfl
  | cons x xs ih =>
    cases r with
    | zero => omega
    | succ r =>
      have h1 : xs.length < r := by simpa using h
      have h2 : xs.length < r + 1 := by omega
      simp [combinations, ih h1, ih h2]

/-- C7 amended: for `r > n` the builder does not raise; it returns the
empty sequence of combinations (of length `C(n, r) = 0`). -/
theorem c7_amended {α : Type} (a : List α) (r : Nat) (h : a.length < r) :
    _combs a r = [] ∧ (_combs a r).length = a.length.choose r :=
  ⟨combinations_eq_nil_of_lt h, combinations_length a r⟩

theorem c7_amended_witness :
    ((["AAA", "CCC"] : List String).length < 5) ∧
    (_combs (["AAA", "CCC"] : List String) 5 = [] ∧
     (_combs (["AAA", "CCC"] : List String) 5).length
        = (["AAA", "CCC"] : List String).length.choose 5) :=
  ⟨by decide, c7_amended ["AAA", "CCC"] 5 (by decide)⟩

/-- C6 counterexample: with `ths = "AAA"` and `rbs = "AA"`, the RBS occurs
more than once in the switch (at positions 0 and 1), yet strict mode does
not reject this input: Python `str.count` counts non-overlapping
occurrences only, so the assertion `ths.count(rbs) <= 1` passes and the
call returns the span of the last occurrence. -/
theorem c6_counterexample :
    occurrenceCount (upperStr ("AAA".toList)) (upperStr ("AA".toList)) = 2 ∧
    find_rbs ("AAA".toList) ("AA".toList) true = Except.ok (1, 3) := by
  constructor
  · rfl
  · rfl

/-- C6 amended: `find_rbs` case-normalizes both sequences and returns the
half-open span `[i, i + len(rbs))` of the *last* occurrence; it errors
synchronously when there is no occurrence; and under the strict flag it
rejects inputs in which the (uppercased) RBS occurs more than once
*counting non-overlapping occurrences from the left* (Python `str.count`)
— overlapping repeats are not rejected. -/
theorem c6_amended (ths rbs : List Char) (mc : Bool) :
    (∀ i j, find_rbs ths rbs mc = Except.ok (i, j) →
      j = i + rbs.length ∧
      matchAt (upperStr ths) (upperStr rbs) i = true ∧
      ∀ k, k ≤ (upperStr ths).length →
        matchAt (upperStr ths) (upperStr rbs) k = true → k ≤ i) ∧
    (occurrenceCount (upperStr ths) (upperStr rbs) = 0 →
      ∃ e, find_rbs ths rbs mc = Except.error e) ∧
    (mc = true → 1 < strCount (upperStr ths) (upperStr rbs) →
      find_rbs ths rbs mc = Except.error FindErr.assertionError) := by
  by_cases hif : mc = true ∧ 1 < strCount (upperStr ths) (upperStr rbs)
  · refine ⟨?_, ?_, ?_⟩
    · intro i j hok
      simp only [find_rbs, if_pos hif] at hok
      exact Except.noConfusion hok
    · intro _
      exact ⟨FindErr.assertionError, by simp only [find_rbs, if_pos hif]⟩
    · intro _ _
      simp only [find_rbs, if_pos hif]
  · refine ⟨?_, ?_, ?_⟩
    · intro i j hok
      simp only [find_rbs, if_neg hif] at hok
      cases hri : strRindex (upperStr ths) (upperStr rbs) with
      | none => rw [hri] at hok; exact absurd hok (by simp)
      | some i0 =>
        rw [hri] at hok
        have hinj : (i0, i0 + (upperStr rbs).length) = (i, j) := by
          simpa using hok
        obtain ⟨rfl, rfl⟩ : i0 = i ∧ i0 + (upperStr rbs).length = j := by
          constructor
          · exact congrArg Prod.fst hinj
          · exact congrArg Prod.snd hinj
        obtain ⟨hm, hle, hmax⟩ := strRindex_some hri
        refine ⟨?_, hm, hmax⟩
        simp [upperStr]
    · intro hocc
      have hnone : strRindex (upperStr ths) (upperStr rbs) = none :=
        strRindex_none hocc
      exact ⟨FindErr.valueError, by simp only [find_rbs, if_neg hif, hnone]⟩
    · intro hmc hcnt
      exact absurd ⟨hmc, hcnt⟩ hif

theorem c6_amended_witness :
    find_rbs ("ABAB".toList) ("ab".toList) false = Except.ok (2, 4) ∧
    (4 = 2 + ("ab".toList).length ∧
     matchAt (upperStr ("ABAB".toList)) (upperStr ("ab".toList)) 2 = true ∧
     ∀ k, k ≤ (upperStr ("ABAB".toList)).length →
       matchAt (upperStr ("ABAB".toList)) (upperStr ("ab".toList)) k = true →
       k ≤ 2) :=
  ⟨by decide, (c6_amended ("ABAB".toList) ("ab".toList) false).1 2 4 (by decide)⟩

/-! ## Temperature-sweep result (`thtools/crt.py`, `CelsiusRangeResult`)

`ToeholdResult` (the per-temperature screen result) is produced by the
compiled `thtools.core` extension; `crt.py` only reads its fields, so it
is embedded as a plain record of data.  A per-temperature target is either
a whole trigger set (tuple) or, for size-1 sets, its sole member sequence;
`TVal` is that sum.  Python floats are embedded as `ℚ` (the sweep-result
code only copies them).

`CelsiusRangeResult.meta` is a Python dict that the constructor receives
*by reference* and that the `inferred_target` setter mutates in place.
Dicts are therefore kept in an explicit store (`Store`, a list of
insertion-ordered association lists) and the result object holds an index
(`metaRef`) into it; every mutating operation threads the store. -/

/-- A per-temperature target value: either a whole trigger set or a single
trigger sequence (the sole member of a size-1 set). -/
inductive TVal where
  | set (ts : List String)
  | seq (s : String)
deriving DecidableEq

/-- Rendering used when a target value is written into the metadata dict
(`f"{key}: {value}"` interpolation). -/
def TVal.render : TVal → String
  | TVal.set ts => "(" ++ String.intercalate ", " ts ++ ")"
  | TVal.seq s => s

/-- Rendering of an optional target name (`None` renders as "None"). -/
def renderName : Option String → String
  | none => "None"
  | some s => s

/-- An insertion-ordered string-keyed dict (Python `dict` with the values
already rendered to strings). -/
abbrev MetaD : Type := List (String × String)

/-- Python `d[k] = v`: update in place if the key exists (keeping
insertion order), else append. -/
def dictSet (d : MetaD) (k v : String) : MetaD :=
  if d.any (fun p => p.1 = k) then
    d.map (fun p => if p.1 = k then (k, v) else p)
  else d ++ [(k, v)]

/-- Python `del d[k]`: `none` models the `KeyError` when the key is
absent. -/
def delKey (d : MetaD) (k : String) : Option MetaD :=
  if d.any (fun p => p.1 = k) then some (d.eraseP (fun p => p.1 = k)) else none

/-- `"\n".join(f"{key}: {value}" for key, value in meta.items())`. -/
def renderMeta (d : MetaD) : String :=
  String.intercalate "\n" (d.map (fun p => p.1 ++ ": " ++ p.2))

/-- The store of shared dict objects; a dict reference is an index. -/
abbrev Store : Type := List MetaD

def Store.read (st : Store) (r : Nat) : MetaD := st.getD r []

def Store.write (st : Store) (r : Nat) (d : MetaD) : Store := st.set r d

/-- `thtools.core.ToeholdResult` as read by `crt.py`: a record of
per-trigger-set series, the argmax target, and scalar specificity data.
The compiled extension computes these; the sweep-result code only reads
them. -/
structure ToeholdResult where
  target : TVal
  target_name : Option String
  trigger_sets : List (List String)
  activation : List ℚ
  activation_se : List ℚ
  rbs_unbinding : List ℚ
  aug_unbinding : List ℚ
  post_aug_unbinding : List ℚ
  specificity : ℚ
  specificity_se : ℚ
  meta : MetaD
deriving DecidableEq

/-- `thtools.crt.CelsiusRangeResult` (slots; `unix_created`/`date` — wall
clock data — are not modelled). -/
@[ext]
structure CelsiusRangeResult where
  results : List ToeholdResult
  celsius_range : List ℚ
  metaRef : Nat
  targets : List TVal
  target_names : List (Option String)
  pretty_meta : String
  inferred_target : TVal
  inferred_target_name : Option String
  activation : List ℚ
  rbs_unbinding : List ℚ
  aug_unbinding : List ℚ
  post_aug_unbinding : List ℚ
  specificity : List ℚ
  activation_se : List ℚ
  specificity_se : List ℚ
deriving DecidableEq

/-- Python exceptions surfaced by the `CelsiusRangeResult` code paths. -/
inductive PyErr where
  | valueError
  | indexError
  | stopIteration
  | keyError
deriving DecidableEq

/-- First index in a list satisfying a predicate (Python `list.index` /
`next(i for i, v in enumerate(l) if ...)`). -/
def findIdxP {α : Type} (p : α → Bool) : List α → Option Nat
  | [] => none
  | a :: l => if p a then some 0 else (findIdxP p l).map (fun i => i + 1)

/-- The membership test of the setter's generator expression:
`val == self.inferred_target or (len(val) == 1 and val[0] == self.inferred_target)`. -/
def matchesTS (ts : List String) (t : TVal) : Bool :=
  (t = TVal.set ts) ||
    (match ts with
     | [x] => t = TVal.seq x
     | _ => false)

/-- The `for result in self.results` loop of the `inferred_target` setter:
appends to the seven derived series one temperature at a time; a missing
match raises `StopIteration` (from `next`) at that point, leaving the
series built so far in place (Python mutates `self` as it goes). -/
def seriesLoop (value : TVal) :
    List ToeholdResult → CelsiusRangeResult → CelsiusRangeResult × Option PyErr
  | [], s => (s, none)
  | r :: rest, s =>
    match findIdxP (fun ts => matchesTS ts value) r.trigger_sets with
    | none => (s, some PyErr.stopIteration)
    | some i =>
      match r.activation[i]? with
      | none => (s, some PyErr.indexError)
      | some a =>
        let s := { s with activation := s.activation ++ [a] }
        match r.activation_se[i]? with
        | none => (s, some PyErr.indexError)
        | some b =>
          let s := { s with activation_se := s.activation_se ++ [b] }
          match r.rbs_unbinding[i]? with
          | none => (s, some PyErr.indexError)
          | some c =>
            let s := { s with rbs_unbinding := s.rbs_unbinding ++ [c] }
            match r.aug_unbinding[i]? with
            | none => (s, some PyErr.indexError)
            | some dq =>
              let s := { s with aug_unbinding := s.aug_unbinding ++ [dq] }
              match r.post_aug_unbinding[i]? with
              | none => (s, some PyErr.indexError)
              | some e =>
                let s :=
                  { s with post_aug_unbinding := s.post_aug_unbinding ++ [e] }
                let s :=
                  if r.target = value then
                    { s with specificity := s.specificity ++ [r.specificity],
                             specificity_se :=
                               s.specificity_se ++ [r.specificity_se] }
                  else
                    { s with specificity := s.specificity ++ [0],
                             specificity_se := s.specificity_se ++ [0] }
                seriesLoop value rest s

/-- The `inferred_target` property setter (`crt.py` lines 205-239),
statement by statement: look the value up in `self.targets` (Python
`list.index`, `ValueError` when absent), write "Target name" and
"Target sequence" into the shared metadata dict, rebuild `pretty_meta`,
reset the seven derived series and refill them with `seriesLoop`.  The
returned triple is (store, object state, raised exception): on an
exception the store and state are whatever the executed prefix of the
setter left behind. -/
def setInferredTarget (st : Store) (s : CelsiusRangeResult) (value : TVal) :
    Store × CelsiusRangeResult × Option PyErr :=
  match findIdxP (fun t => t = value) s.targets with
  | none => (st, s, some PyErr.valueError)
  | some idx =>
    match s.target_names[idx]? with
    | none => (st, s, some PyErr.indexError)
    | some nm =>
      let d1 := dictSet (st.read s.metaRef) "Target name" (renderName nm)
      let st1 := st.write s.metaRef d1
      let s1 := { s with inferred_target_name := nm }
      let d2 := dictSet d1 "Target sequence" (TVal.render value)
      let st2 := st1.write s.metaRef d2
      let s2 := { s1 with inferred_target := value }
      let s3 := { s2 with pretty_meta := renderMeta d2 }
      let s4 := { s3 with
        specificity := [], specificity_se := [],
        activation := [], activation_se := [],
        aug_unbinding := [], rbs_unbinding := [], post_aug_unbinding := [] }
      (st2, (seriesLoop value s4.results s4).1,
        (seriesLoop value s4.results s4).2)

/-- `max(set(self.targets), key=self.targets.count)` for a nonempty list:
Python `max` keeps the first iterated element whose key is maximal.
CPython set-iteration order is unspecified; it is modelled as
first-occurrence order (no claim below depends on the tie order). -/
def dedupFirst : List TVal → List TVal
  | [] => []
  | x :: xs => x :: (dedupFirst xs).filter (fun y => y ≠ x)

def pyMaxByCount (l : List TVal) : Option TVal :=
  (dedupFirst l).foldl
    (fun best x =>
      match best with
      | none => some x
      | some b => if l.count b < l.count x then some x else some b)
    none

/-- `CelsiusRangeResult.__init__`: stores results/range/meta reference,
derives `targets`/`target_names`, then assigns the mode of `targets` to
`inferred_target` (running the full setter).  `max` of an empty sequence,
or a setter exception, makes construction fail; the store keeps any
mutations the partial construction performed. -/
def crrInit (st : Store) (results : List ToeholdResult)
    (celsius_range : List ℚ) (metaRef : Nat) :
    Store × Option CelsiusRangeResult :=
  let targets := results.map (fun r => r.target)
  let target_names := results.map (fun r => r.target_name)
  match pyMaxByCount targets with
  | none => (st, none)
  | some mode =>
    let s0 : CelsiusRangeResult := {
      results := results, celsius_range := celsius_range, metaRef := metaRef,
      targets := targets, target_names := target_names,
      pretty_meta := "", inferred_target := TVal.seq "",
      inferred_target_name := none,
      activation := [], rbs_unbinding := [], aug_unbinding := [],
      post_aug_unbinding := [], specificity := [], activation_se := [],
      specificity_se := [] }
    match setInferredTarget st s0 mode with
    | (st', s', none) => (st', some s')
    | (st', _, some _) => (st', none)

/-- Python list slicing `l[a:b]` for non-negative bounds. -/
def pySlice {α : Type} (l : List α) (a b : Nat) : List α :=
  (l.drop a).take (b - a)

/-- `CelsiusRangeResult.__getitem__` with a slice key: builds a new
result from the sliced results and temperatures, passing the *same*
metadata dict (the reference is shared, not copied). -/
def getitemSlice (st : Store) (s : CelsiusRangeResult) (a b : Nat) :
    Store × Option CelsiusRangeResult :=
  crrInit st (pySlice s.results a b) (pySlice s.celsius_range a b) s.metaRef

/-- `CelsiusRangeResult.copy`: re-constructs from the same results, range
and metadata dict, then retargets the new object to the current
`inferred_target`. -/
def crrCopy (st : Store) (s : CelsiusRangeResult) :
    Store × Option CelsiusRangeResult :=
  match crrInit st s.results s.celsius_range s.metaRef with
  | (st1, some n) =>
    match setInferredTarget st1 n s.inferred_target with
    | (st2, n2, none) => (st2, some n2)
    | (st2, _, some _) => (st2, none)
  | (st1, none) => (st1, none)

/-- The `inferred_target_name` setter:
`self.inferred_target = self.targets[self.target_names.index(value)]`. -/
def setInferredTargetName (st : Store) (s : CelsiusRangeResult)
    (value : Option String) : Store × CelsiusRangeResult × Option PyErr :=
  match findIdxP (fun n => n = value) s.target_names with
  | none => (st, s, some PyErr.valueError)
  | some i =>
    match s.targets[i]? with
    | none => (st, s, some PyErr.indexError)
    | some t => setInferredTarget st s t

/-- `CelsiusRangeResult.__eq__`: equal temperature ranges, equal results
and equal inferred target. -/
def crrEqv (x y : CelsiusRangeResult) : Prop :=
  x.celsius_range = y.celsius_range ∧ x.results = y.results ∧
    x.inferred_target = y.inferred_target

instance (x y : CelsiusRangeResult) : Decidable (crrEqv x y) :=
  inferInstanceAs (Decidable (_ ∧ _ ∧ _))

/-! ### Characterization lemmas for the setter -/

theorem findIdxP_none_iff {α : Type} (p : α → Bool) (l : List α) :
    findIdxP p l = none ↔ ∀ x ∈ l, p x = false := by
  induction l with
  | nil => simp [findIdxP]
  | cons a l ih =>
    by_cases hp : p a
    · simp [findIdxP, hp]
    · simp only [findIdxP, if_neg hp, List.mem_cons]
      constructor
      · intro h x hx
        rcases hx with rfl | hx
        · simpa using hp
        · exact (ih.mp (by
            cases hfi : findIdxP p l with
            | none => rfl
            | some i => rw [hfi] at h; simp at h)) x hx
      · intro h
        rw [ih.mpr (fun x hx => h x (Or.inr hx))]
        rfl

theorem findIdxP_some_spec {α : Type} {p : α → Bool} {l : List α} {i : Nat}
    (h : findIdxP p l = some i) : ∃ x, l[i]? = some x ∧ p x = true := by
  induction l generalizing i with
  | nil => simp [findIdxP] at h
  | cons a l ih =>
    by_cases hp : p a
    · simp only [findIdxP, if_pos hp] at h
      cases h
      exact ⟨a, by simp, hp⟩
    · simp only [findIdxP, if_neg hp] at h
      cases hfi : findIdxP p l with
      | none => rw [hfi] at h; simp at h
      | some j =>
        rw [hfi] at h
        simp only [Option.map_some'] at h
        cases h
        rcases ih hfi with ⟨x, hx, hpx⟩
        exact ⟨x, by simpa using hx, hpx⟩

theorem findIdxP_isSome_of_exists {α : Type} {p : α → Bool} {l : List α}
    (h : ∃ x ∈ l, p x = true) : ∃ i, findIdxP p l = some i := by
  induction l with
  | nil => simp at h
  | cons a l ih =>
    by_cases hp : p a
    · exact ⟨0, by simp [findIdxP, hp]⟩
    · rcases h with ⟨x, hx, hpx⟩
      rcases List.mem_cons.mp hx with rfl | hx
      · exact absurd hpx (by simpa using hp)
      · rcases ih ⟨x, hx, hpx⟩ with ⟨i, hi⟩
        exact ⟨i + 1, by simp [findIdxP, hp, hi]⟩

theorem findIdxP_lt_length {α : Type} {p : α → Bool} {l : List α} {i : Nat}
    (h : findIdxP p l = some i) : i < l.length := by
  rcases findIdxP_some_spec h with ⟨x, hx, _⟩
  exact (List.getElem?_eq_some.mp hx).1

/-- `Option`-valued elementwise map over a list, `none` as soon as one
element maps to `none` (proof device for describing the setter loop). -/
def optMap {α β : Type} (f : α → Option β) : List α → Option (List β)
  | [] => some []
  | a :: l =>
    match f a, optMap f l with
    | some b, some bs => some (b :: bs)
    | _, _ => none

theorem optMap_length {α β : Type} {f : α → Option β} {l : List α}
    {L : List β} (h : optMap f l = some L) : L.length = l.length := by
  induction l generalizing L with
  | nil => simp [optMap] at h; simp [← h]
  | cons a l ih =>
    simp only [optMap] at h
    cases hfa : f a with
    | none => rw [hfa] at h; simp at h
    | some b =>
      cases hfl : optMap f l with
      | none => rw [hfa, hfl] at h; simp at h
      | some bs =>
        rw [hfa, hfl] at h
        cases h
        simp [ih hfl]

theorem optMap_get? {α β : Type} {f : α → Option β} {l : List α}
    {L : List β} (h : optMap f l = some L) {i : Nat} {x : α}
    (hx : l[i]? = some x) : L[i]? = f x := by
  induction l generalizing L i with
  | nil => simp at hx
  | cons a l ih =>
    simp only [optMap] at h
    cases hfa : f a with
    | none => rw [hfa] at h; simp at h
    | some b =>
      cases hfl : optMap f l with
      | none => rw [hfa, hfl] at h; simp at h
      | some bs =>
        rw [hfa, hfl] at h
        cases h
        cases i with
        | zero =>
          simp only [List.getElem?_cons_zero, Option.some.injEq] at hx
          subst hx
          simp [hfa]
        | succ i =>
          simp only [List.getElem?_cons_succ] at hx ⊢
          exact ih hfl hx

theorem optMap_isSome_of_forall {α β : Type} {f : α → Option β} {l : List α}
    (h : ∀ x ∈ l, (f x).isSome = true) : ∃ L, optMap f l = some L := by
  induction l with
  | nil => exact ⟨[], rfl⟩
  | cons a l ih =>
    rcases Option.isSome_iff_exists.mp (h a (List.mem_cons_self a l)) with ⟨b, hb⟩
    rcases ih (fun x hx => h x (List.mem_cons_of_mem a hx)) with ⟨bs, hbs⟩
    exact ⟨b :: bs, by simp [optMap, hb, hbs]⟩

theorem optMap_forall_isSome {α β : Type} {f : α → Option β} {l : List α}
    {L : List β} (h : optMap f l = some L) :
    ∀ x ∈ l, (f x).isSome = true := by
  induction l generalizing L with
  | nil => simp
  | cons a l ih =>
    simp only [optMap] at h
    cases hfa : f a with
    | none => rw [hfa] at h; simp at h
    | some b =>
      cases hfl : optMap f l with
      | none => rw [hfa, hfl] at h; simp at h
      | some bs =>
        intro x hx
        rcases List.mem_cons.mp hx with rfl | hx
        · simp [hfa]
        · exact ih hfl x hx

/-- One temperature's contribution to the derived series, as the setter
loop computes it: the values at the first trigger-set index matching the
chosen target, with specificity gated on the temperature's own target. -/
structure Row where
  act : ℚ
  actSe : ℚ
  rbs : ℚ
  aug : ℚ
  postAug : ℚ
  sp : ℚ
  spSe : ℚ
deriving DecidableEq

def rowOf (value : TVal) (r : ToeholdResult) : Option Row :=
  (findIdxP (fun ts => matchesTS ts value) r.trigger_sets).bind (fun i =>
    (r.activation[i]?).bind (fun a =>
      (r.activation_se[i]?).bind (fun b =>
        (r.rbs_unbinding[i]?).bind (fun c =>
          (r.aug_unbinding[i]?).bind (fun d =>
            (r.post_aug_unbinding[i]?).map (fun e =>
              { act := a, actSe := b, rbs := c, aug := d, postAug := e,
                sp := if r.target = value then r.specificity else 0,
                spSe :=
                  if r.target = value then r.specificity_se else 0 }))))))

theorem rowOf_spec {value : TVal} {r : ToeholdResult} {row : Row}
    (h : rowOf value r = some row) :
    ∃ j, findIdxP (fun ts => matchesTS ts value) r.trigger_sets = some j ∧
      r.activation[j]? = some row.act ∧
      r.activation_se[j]? = some row.actSe ∧
      r.rbs_unbinding[j]? = some row.rbs ∧
      r.aug_unbinding[j]? = some row.aug ∧
      r.post_aug_unbinding[j]? = some row.postAug ∧
      row.sp = (if r.target = value then r.specificity else 0) ∧
      row.spSe = (if r.target = value then r.specificity_se else 0) := by
  simp only [rowOf, Option.bind_eq_some, Option.map_eq_some'] at h
  rcases h with ⟨j, hj, a, ha, b, hb, c, hc, d, hd, e, he, hrow⟩
  subst hrow
  exact ⟨j, hj, ha, hb, hc, hd, he, rfl, rfl⟩

theorem seriesLoop_eval (value : TVal) (rs : List ToeholdResult)
    (rows : List Row) (h : optMap (rowOf value) rs = some rows)
    (s : CelsiusRangeResult) :
    seriesLoop value rs s =
      ({ s with
          activation := s.activation ++ rows.map Row.act,
          activation_se := s.activation_se ++ rows.map Row.actSe,
          rbs_unbinding := s.rbs_unbinding ++ rows.map Row.rbs,
          aug_unbinding := s.aug_unbinding ++ rows.map Row.aug,
          post_aug_unbinding := s.post_aug_unbinding ++ rows.map Row.postAug,
          specificity := s.specificity ++ rows.map Row.sp,
          specificity_se := s.specificity_se ++ rows.map Row.spSe }, none) := by
  induction rs generalizing rows s with
  | nil =>
    simp only [optMap, Option.some.injEq] at h
    subst h
    simp [seriesLoop]
  | cons r rest ih =>
    obtain ⟨row, hfr, rows', hrest, rfl⟩ :
        ∃ row, rowOf value r = some row ∧
          ∃ rows', optMap (rowOf value) rest = some rows' ∧
            rows = row :: rows' := by
      simp only [optMap] at h
      cases hfa : rowOf value r with
      | none => rw [hfa] at h; simp at h
      | some row =>
        cases hfl : optMap (rowOf value) rest with
        | none => rw [hfa, hfl] at h; simp at h
        | some rows' =>
          rw [hfa, hfl] at h
          cases h
          exact ⟨row, rfl, rows', rfl, rfl⟩
    rcases rowOf_spec hfr with ⟨j, hj, ha, hb, hc, hd, he, hsp, hspse⟩
    by_cases ht : r.target = value
    · simp only [seriesLoop, hj, ha, hb, hc, hd, he, if_pos ht]
      rw [ih rows' hrest]
      simp only [if_pos ht] at hsp hspse
      simp [hsp, hspse, List.append_assoc]
    · simp only [seriesLoop, hj, ha, hb, hc, hd, he, if_neg ht]
      rw [ih rows' hrest]
      simp only [if_neg ht] at hsp hspse
      simp [hsp, hspse, List.append_assoc]

theorem seriesLoop_fail_head (value : TVal) (r : ToeholdResult)
    (rest : List ToeholdResult) (s : CelsiusRangeResult)
    (h : rowOf value r = none) :
    ∃ e, (seriesLoop value (r :: rest) s).2 = some e := by
  cases hj : findIdxP (fun ts => matchesTS ts value) r.trigger_sets with
  | none => exact ⟨PyErr.stopIteration, by simp [seriesLoop, hj]⟩
  | some j =>
    cases ha : r.activation[j]? with
    | none => exact ⟨PyErr.indexError, by simp [seriesLoop, hj, ha]⟩
    | some a =>
      cases hb : r.activation_se[j]? with
      | none => exact ⟨PyErr.indexError, by simp [seriesLoop, hj, ha, hb]⟩
      | some b =>
        cases hc : r.rbs_unbinding[j]? with
        | none => exact ⟨PyErr.indexError, by simp [seriesLoop, hj, ha, hb, hc]⟩
        | some c =>
          cases hd : r.aug_unbinding[j]? with
          | none =>
            exact ⟨PyErr.indexError, by simp [seriesLoop, hj, ha, hb, hc, hd]⟩
          | some d =>
            cases he : r.post_aug_unbinding[j]? with
            | none =>
              exact ⟨PyErr.indexError,
                by simp [seriesLoop, hj, ha, hb, hc, hd, he]⟩
            | some e =>
              exact absurd h (by simp [rowOf, hj, ha, hb, hc, hd, he])

theorem seriesLoop_success (value : TVal) (rs : List ToeholdResult) :
    ∀ s s', seriesLoop value rs s = (s', none) →
      ∃ rows, optMap (rowOf value) rs = some rows := by
  induction rs with
  | nil => intro s s' _; exact ⟨[], rfl⟩
  | cons r rest ih =>
    intro s s' h
    cases hro : rowOf value r with
    | none =>
      rcases seriesLoop_fail_head value r rest s hro with ⟨e, he⟩
      rw [h] at he
      simp at he
    | some row =>
      rcases rowOf_spec hro with ⟨j, hj, ha, hb, hc, hd, he, hsp, hspse⟩
      by_cases ht : r.target = value
      · simp only [seriesLoop, hj, ha, hb, hc, hd, he, if_pos ht] at h
        rcases ih _ _ h with ⟨rows', hrows'⟩
        exact ⟨row :: rows', by simp [optMap, hro, hrows']⟩
      · simp only [seriesLoop, hj, ha, hb, hc, hd, he, if_neg ht] at h
        rcases ih _ _ h with ⟨rows', hrows'⟩
        exact ⟨row :: rows', by simp [optMap, hro, hrows']⟩

theorem seriesLoop_fail (value : TVal) (rs : List ToeholdResult)
    (h : optMap (rowOf value) rs = none) :
    ∀ s, ∃ e, (seriesLoop value rs s).2 = some e := by
  induction rs with
  | nil => simp [optMap] at h
  | cons r rest ih =>
    intro s
    cases hro : rowOf value r with
    | none => exact seriesLoop_fail_head value r rest s hro
    | some row =>
      have hrest : optMap (rowOf value) rest = none := by
        simp only [optMap, hro] at h
        cases hfl : optMap (rowOf value) rest with
        | none => rfl
        | some rows' => rw [hfl] at h; simp at h
      rcases rowOf_spec hro with ⟨j, hj, ha, hb, hc, hd, he, _, _⟩
      by_cases ht : r.target = value
      · simp only [seriesLoop, hj, ha, hb, hc, hd, he, if_pos ht]
        exact ih hrest _
      · simp only [seriesLoop, hj, ha, hb, hc, hd, he, if_neg ht]
        exact ih hrest _

/-! ### Dict and store lemmas -/

theorem dictSet_any_self (d : MetaD) (k v : String) :
    (dictSet d k v).any (fun p => p.1 = k) = true := by
  unfold dictSet
  by_cases hk : d.any (fun p => p.1 = k) = true
  · rw [if_pos hk]
    rcases List.any_eq_true.mp hk with ⟨p, hp, hpk⟩
    refine List.any_eq_true.mpr ⟨(k, v), List.mem_map.mpr ⟨p, hp, ?_⟩, by simp⟩
    simp only [decide_eq_true_eq] at hpk
    simp [hpk]
  · rw [if_neg hk]
    exact List.any_eq_true.mpr ⟨(k, v), by simp, by simp⟩

theorem dictSet_eq_of_mem_self {d : MetaD} {k v : String}
    {p : String × String} (hp : p ∈ dictSet d k v) (hk : p.1 = k) :
    p = (k, v) := by
  unfold dictSet at hp
  by_cases hany : d.any (fun q => q.1 = k) = true
  · rw [if_pos hany] at hp
    rcases List.mem_map.mp hp with ⟨q, _, rfl⟩
    by_cases hq : q.1 = k
    · simp [hq]
    · simp only [if_neg hq]
      simp only [if_neg hq] at hk
      exact absurd hk hq
  · rw [if_neg hany] at hp
    rcases List.mem_append.mp hp with hmem | hmem
    · exact absurd (List.any_eq_true.mpr ⟨p, hmem, by simp [hk]⟩) hany
    · simpa using hmem

theorem dictSet_mem_of_ne {d : MetaD} {k v : String} {p : String × String}
    (hp : p ∈ dictSet d k v) (hk : p.1 ≠ k) : p ∈ d := by
  unfold dictSet at hp
  by_cases hany : d.any (fun q => q.1 = k) = true
  · rw [if_pos hany] at hp
    rcases List.mem_map.mp hp with ⟨q, hq, rfl⟩
    by_cases hqk : q.1 = k
    · simp only [if_pos hqk] at hk
      exact absurd rfl hk
    · simpa [if_neg hqk] using hq
  · rw [if_neg hany] at hp
    rcases List.mem_append.mp hp with hmem | hmem
    · exact hmem
    · simp only [List.mem_singleton] at hmem
      subst hmem
      exact absurd rfl hk

theorem dictSet_any_of_any {d : MetaD} {k v k' : String}
    (h : d.any (fun p => p.1 = k') = true) :
    (dictSet d k v).any (fun p => p.1 = k') = true := by
  by_cases hkk : k' = k
  · subst hkk
    exact dictSet_any_self d k' v
  · unfold dictSet
    by_cases hany : d.any (fun q => q.1 = k) = true
    · rw [if_pos hany]
      rcases List.any_eq_true.mp h with ⟨p, hp, hpk⟩
      simp only [decide_eq_true_eq] at hpk
      refine List.any_eq_true.mpr ⟨p, List.mem_map.mpr ⟨p, hp, ?_⟩, by simp [hpk]⟩
      rw [if_neg (by rw [hpk]; exact hkk)]
    · rw [if_neg hany]
      rcases List.any_eq_true.mp h with ⟨p, hp, hpk⟩
      exact List.any_eq_true.mpr ⟨p, List.mem_append.mpr (Or.inl hp), hpk⟩

theorem dictSet_id {d : MetaD} {k v : String}
    (h1 : d.any (fun p => p.1 = k) = true)
    (h2 : ∀ p ∈ d, p.1 = k → p = (k, v)) : dictSet d k v = d := by
  unfold dictSet
  rw [if_pos h1]
  have : ∀ p ∈ d, (if p.1 = k then (k, v) else p) = p := by
    intro p hp
    by_cases hpk : p.1 = k
    · rw [if_pos hpk, ← h2 p hp hpk]
    · rw [if_neg hpk]
  rw [List.map_congr_left this]
  exact List.map_id d

theorem store_read_write_self {st : Store} {r : Nat} (h : r < st.length)
    (d : MetaD) : (st.write r d).read r = d := by
  unfold Store.write Store.read
  induction st generalizing r with
  | nil => simp at h
  | cons x xs ih =>
    cases r with
    | zero => rfl
    | succ r => exact ih (by simpa using h)

theorem store_write_write (st : Store) (r : Nat) (d1 d2 : MetaD) :
    (st.write r d1).write r d2 = st.write r d2 := by
  unfold Store.write
  exact List.set_set d1 d2 st r

theorem store_write_read_self {st : Store} {r : Nat} (h : r < st.length) :
    st.write r (st.read r) = st := by
  unfold Store.write Store.read
  induction st generalizing r with
  | nil => simp at h
  | cons x xs ih =>
    cases r with
    | zero => rfl
    | succ r => simpa using ih (by simpa using h)

theorem store_length_write (st : Store) (r : Nat) (d : MetaD) :
    (st.write r d).length = st.length := by
  unfold Store.write
  simp

/-! ### Setter characterization -/

/-- The metadata dict after the setter has written the two target keys. -/
def setterDict (d : MetaD) (v : TVal) (nm : Option String) : MetaD :=
  dictSet (dictSet d "Target name" (renderName nm))
    "Target sequence" (TVal.render v)

/-- The object state a successful setter run produces. -/
def setterState (s : CelsiusRangeResult) (v : TVal) (nm : Option String)
    (d : MetaD) (rows : List Row) : CelsiusRangeResult :=
  { s with
    inferred_target_name := nm, inferred_target := v,
    pretty_meta := renderMeta d,
    activation := rows.map Row.act, activation_se := rows.map Row.actSe,
    rbs_unbinding := rows.map Row.rbs, aug_unbinding := rows.map Row.aug,
    post_aug_unbinding := rows.map Row.postAug,
    specificity := rows.map Row.sp, specificity_se := rows.map Row.spSe }

theorem setter_notmem {st : Store} {s : CelsiusRangeResult} {v : TVal}
    (h : findIdxP (fun t => t = v) s.targets = none) :
    setInferredTarget st s v = (st, s, some PyErr.valueError) := by
  simp [setInferredTarget, h]

theorem setter_noname {st : Store} {s : CelsiusRangeResult} {v : TVal}
    {idx : Nat} (h1 : findIdxP (fun t => t = v) s.targets = some idx)
    (h2 : s.target_names[idx]? = none) :
    setInferredTarget st s v = (st, s, some PyErr.indexError) := by
  simp [setInferredTarget, h1, h2]

theorem setter_eval {st : Store} {s : CelsiusRangeResult} {v : TVal}
    {idx : Nat} {nm : Option String} {rows : List Row}
    (h1 : findIdxP (fun t => t = v) s.targets = some idx)
    (h2 : s.target_names[idx]? = some nm)
    (h3 : optMap (rowOf v) s.results = some rows) :
    setInferredTarget st s v =
      (st.write s.metaRef (setterDict (st.read s.metaRef) v nm),
       setterState s v nm (setterDict (st.read s.metaRef) v nm) rows,
       none) := by
  simp only [setInferredTarget, h1, h2]
  rw [seriesLoop_eval v _ rows h3]
  unfold setterDict setterState Store.write
  rw [List.set_set]
  simp

theorem setter_success_inv {st : Store} {s : CelsiusRangeResult} {v : TVal}
    {st' : Store} {s' : CelsiusRangeResult}
    (h : setInferredTarget st s v = (st', s', none)) :
    ∃ idx nm rows,
      findIdxP (fun t => t = v) s.targets = some idx ∧
      s.target_names[idx]? = some nm ∧
      optMap (rowOf v) s.results = some rows ∧
      st' = st.write s.metaRef (setterDict (st.read s.metaRef) v nm) ∧
      s' = setterState s v nm (setterDict (st.read s.metaRef) v nm) rows := by
  cases hfi : findIdxP (fun t => t = v) s.targets with
  | none =>
    rw [setter_notmem hfi] at h
    exact absurd (congrArg (fun t => t.2.2) h) (by simp)
  | some idx =>
    cases hnm : s.target_names[idx]? with
    | none =>
      rw [setter_noname hfi hnm] at h
      exact absurd (congrArg (fun t => t.2.2) h) (by simp)
    | some nm =>
      cases hom : optMap (rowOf v) s.results with
      | none =>
        have hfail := seriesLoop_fail v s.results hom
        simp only [setInferredTarget, hfi, hnm] at h
        rcases hfail _ with ⟨e, he⟩
        have h2 := congrArg (fun t => t.2.2) h
        simp only at h2
        rw [he] at h2
        exact absurd h2 (by simp)
      | some rows =>
        rw [setter_eval hfi hnm hom] at h
        have hst := congrArg (fun t => t.1) h
        have hs := congrArg (fun t => t.2.1) h
        simp only at hst hs
        exact ⟨idx, nm, rows, rfl, hnm, rfl, hst.symm, hs.symm⟩

theorem mem_of_getElem?_some {α : Type} {l : List α} {i : Nat} {x : α}
    (h : l[i]? = some x) : x ∈ l := by
  rcases List.getElem?_eq_some.mp h with ⟨hl, rfl⟩
  exact List.getElem_mem hl

theorem rowOf_isSome_findIdxP {v : TVal} {r : ToeholdResult}
    (h : (rowOf v r).isSome = true) :
    ∃ j, findIdxP (fun ts => matchesTS ts v) r.trigger_sets = some j := by
  cases hfi : findIdxP (fun ts => matchesTS ts v) r.trigger_sets with
  | none => rw [rowOf, hfi] at h; simp at h
  | some j => exact ⟨j, rfl⟩

/-! ## Claims about the `inferred_target` setter -/

/-- C2: after a (successful) assignment of a target `T` to
`inferred_target`, at every temperature index `i`: specificity and its SE
are the temperature's own values when that temperature's own `target`
equals `T` and exactly 0 otherwise; and the activation, activation SE and
three unbinding series at `i` are read off at the (first) position of `T`
within that temperature's trigger sets, a position that matches either the
exact set or a size-1 set whose sole member is `T`. -/
theorem c2_retarget_series (st : Store) (s : CelsiusRangeResult) (T : TVal)
    (st' : Store) (s' : CelsiusRangeResult)
    (hok : setInferredTarget st s T = (st', s', none))
    (i : Nat) (r : ToeholdResult) (hr : s.results[i]? = some r) :
    (r.target ≠ T →
      s'.specificity[i]? = some 0 ∧ s'.specificity_se[i]? = some 0) ∧
    (r.target = T →
      s'.specificity[i]? = some r.specificity ∧
      s'.specificity_se[i]? = some r.specificity_se) ∧
    ∃ j, findIdxP (fun ts => matchesTS ts T) r.trigger_sets = some j ∧
      s'.activation[i]? = r.activation[j]? ∧
      s'.activation_se[i]? = r.activation_se[j]? ∧
      s'.rbs_unbinding[i]? = r.rbs_unbinding[j]? ∧
      s'.aug_unbinding[i]? = r.aug_unbinding[j]? ∧
      s'.post_aug_unbinding[i]? = r.post_aug_unbinding[j]? := by
  rcases setter_success_inv hok with ⟨idx, nm, rows, hfi, hnm, hom, hst, hs⟩
  subst hs
  have hri : rows[i]? = rowOf T r := optMap_get? hom hr
  cases hrow : rows[i]? with
  | none =>
    have hlen := optMap_length hom
    have h1 := List.getElem?_eq_none_iff.mp hrow
    have h2 := (List.getElem?_eq_some.mp hr).1
    omega
  | some row =>
    have hrr : rowOf T r = some row := by rw [← hri, hrow]
    rcases rowOf_spec hrr with ⟨j, hj, ha, hb, hc, hd, he, hsp, hspse⟩
    refine ⟨?_, ?_, j, hj, ?_, ?_, ?_, ?_, ?_⟩
    · intro ht
      rw [if_neg ht] at hsp hspse
      constructor
      · show (rows.map Row.sp)[i]? = some 0
        simp [hrow, ← hsp]
      · show (rows.map Row.spSe)[i]? = some 0
        simp [hrow, ← hspse]
    · intro ht
      rw [if_pos ht] at hsp hspse
      constructor
      · show (rows.map Row.sp)[i]? = some r.specificity
        simp [hrow, ← hsp]
      · show (rows.map Row.spSe)[i]? = some r.specificity_se
        simp [hrow, ← hspse]
    · show (rows.map Row.act)[i]? = r.activation[j]?
      simp [hrow, ha]
    · show (rows.map Row.actSe)[i]? = r.activation_se[j]?
      simp [hrow, hb]
    · show (rows.map Row.rbs)[i]? = r.rbs_unbinding[j]?
      simp [hrow, hc]
    · show (rows.map Row.aug)[i]? = r.aug_unbinding[j]?
      simp [hrow, hd]
    · show (rows.map Row.postAug)[i]? = r.post_aug_unbinding[j]?
      simp [hrow, he]

/-- C3 amended: provided the object is well-formed (names aligned with
targets, series at least as long as the trigger-set list), setting
`inferred_target` succeeds **iff** the value is among the per-temperature
targets *and* every temperature's trigger sets contain a match.  In
particular it also fails — contrary to the claim — when the value is
missing from `targets`, because the setter first runs
`self.targets.index(value)` to look up the name. -/
theorem c3_amended (st : Store) (s : CelsiusRangeResult) (v : TVal)
    (hlen : s.targets.length ≤ s.target_names.length)
    (hwf : ∀ r ∈ s.results,
      r.trigger_sets.length ≤ r.activation.length ∧
      r.trigger_sets.length ≤ r.activation_se.length ∧
      r.trigger_sets.length ≤ r.rbs_unbinding.length ∧
      r.trigger_sets.length ≤ r.aug_unbinding.length ∧
      r.trigger_sets.length ≤ r.post_aug_unbinding.length) :
    (∃ st' s', setInferredTarget st s v = (st', s', none)) ↔
      (v ∈ s.targets ∧
       ∀ r ∈ s.results, ∃ ts ∈ r.trigger_sets, matchesTS ts v = true) := by
  constructor
  · rintro ⟨st', s', hok⟩
    rcases setter_success_inv hok with ⟨idx, nm, rows, hfi, hnm, hom, _, _⟩
    constructor
    · rcases findIdxP_some_spec hfi with ⟨x, hx, hpx⟩
      simp only [decide_eq_true_eq] at hpx
      subst hpx
      exact mem_of_getElem?_some hx
    · intro r hr
      have hsome := optMap_forall_isSome hom r hr
      rcases rowOf_isSome_findIdxP hsome with ⟨j, hj⟩
      rcases findIdxP_some_spec hj with ⟨ts, hts, hmts⟩
      exact ⟨ts, mem_of_getElem?_some hts, hmts⟩
  · rintro ⟨hv, hall⟩
    rcases @findIdxP_isSome_of_exists TVal (fun t => decide (t = v))
        s.targets ⟨v, hv, by simp⟩ with ⟨idx, hfi⟩
    have hidx := findIdxP_lt_length hfi
    obtain ⟨nm, hnm⟩ : ∃ nm, s.target_names[idx]? = some nm := by
      have : idx < s.target_names.length := by omega
      exact ⟨s.target_names.get ⟨idx, this⟩,
        List.getElem?_eq_some.mpr ⟨this, rfl⟩⟩
    obtain ⟨rows, hom⟩ : ∃ rows, optMap (rowOf v) s.results = some rows := by
      apply optMap_isSome_of_forall
      intro r hr
      rcases hall r hr with ⟨ts, hts, hmts⟩
      rcases @findIdxP_isSome_of_exists (List String)
          (fun u => matchesTS u v) r.trigger_sets ⟨ts, hts, hmts⟩
        with ⟨j, hj⟩
      have hjlt := findIdxP_lt_length hj
      rcases hwf r hr with ⟨w1, w2, w3, w4, w5⟩
      have g1 : r.activation[j]? = some (r.activation.get ⟨j, by omega⟩) :=
        List.getElem?_eq_some.mpr ⟨by omega, rfl⟩
      have g2 : r.activation_se[j]?
          = some (r.activation_se.get ⟨j, by omega⟩) :=
        List.getElem?_eq_some.mpr ⟨by omega, rfl⟩
      have g3 : r.rbs_unbinding[j]?
          = some (r.rbs_unbinding.get ⟨j, by omega⟩) :=
        List.getElem?_eq_some.mpr ⟨by omega, rfl⟩
      have g4 : r.aug_unbinding[j]?
          = some (r.aug_unbinding.get ⟨j, by omega⟩) :=
        List.getElem?_eq_some.mpr ⟨by omega, rfl⟩
      have g5 : r.post_aug_unbinding[j]?
          = some (r.post_aug_unbinding.get ⟨j, by omega⟩) :=
        List.getElem?_eq_some.mpr ⟨by omega, rfl⟩
      simp [rowOf, hj, g1, g2, g3, g4, g5]
    exact ⟨_, _, setter_eval hfi hnm hom⟩

/-- C4 amended: the setter is atomic only for the failure mode the claim's
"absent trigger" can hit first, the name lookup: when the chosen value is
not among the per-temperature targets, `self.targets.index(value)` raises
before anything is written and the store and object are returned exactly
as they were.  (When the value *is* some temperature's target but a later
temperature's trigger sets contain no match, the failure surfaces from the
series loop after `inferred_target`, the metadata and a prefix of the
series have already been overwritten — see the counterexample.) -/
theorem c4_amended (st : Store) (s : CelsiusRangeResult) (v : TVal)
    (h : v ∉ s.targets) :
    setInferredTarget st s v = (st, s, some PyErr.valueError) := by
  apply setter_notmem
  rw [findIdxP_none_iff]
  intro x hx
  simp only [decide_eq_false_iff_not]
  intro hxv
  subst hxv
  exact h hx

/-! ### Concrete sweep-result fixtures -/

/-- Builder for concrete `ToeholdResult` test data. -/
def mkRes (t : TVal) (nm : Option String) (tss : List (List String))
    (act : List ℚ) (sp : ℚ) : ToeholdResult :=
  { target := t, target_name := nm, trigger_sets := tss,
    activation := act, activation_se := act,
    rbs_unbinding := act, aug_unbinding := act,
    post_aug_unbinding := act,
    specificity := sp, specificity_se := sp,
    meta := [("Model", "m")] }

/-- Placeholder used only to extract the value from an `Option` that the
surrounding proof separately shows is `some`. -/
def dummyCRR : CelsiusRangeResult :=
  { results := [], celsius_range := [], metaRef := 0, targets := [],
    target_names := [], pretty_meta := "", inferred_target := TVal.seq "",
    inferred_target_name := none, activation := [], rbs_unbinding := [],
    aug_unbinding := [], post_aug_unbinding := [], specificity := [],
    activation_se := [], specificity_se := [] }

def tvA : TVal := TVal.seq "AAA"

def tvB : TVal := TVal.seq "BBB"

/-- Two trigger sets of size one: the shared panel of the fixtures. -/
def panelAB : List (List String) := [["AAA"], ["BBB"]]

def c3res : ToeholdResult := mkRes tvA (some "a") panelAB [9, 1] 9

def c3built : Store × Option CelsiusRangeResult :=
  crrInit [[("Model", "m")]] [c3res, c3res] [10, 20] 0

def c3p : CelsiusRangeResult := c3built.2.getD dummyCRR

/-- C3 counterexample: in a sweep whose two temperatures both elected
`"AAA"`, the trigger `"BBB"` has a match in **every** temperature's
trigger sets, yet assigning it to `inferred_target` fails (with the
`ValueError` from `self.targets.index(value)`): the claim's "fails only
when some temperature's trigger_sets contain no match" is wrong. -/
theorem c3_counterexample :
    c3built.2 = some c3p ∧
    (∀ r ∈ c3p.results, ∃ ts ∈ r.trigger_sets, matchesTS ts tvB = true) ∧
    (setInferredTarget c3built.1 c3p tvB).2.2 = some PyErr.valueError := by
  refine ⟨by decide, by decide, by decide⟩

def c3wit : Store × Option CelsiusRangeResult :=
  crrInit [[("Model", "m")]]
    [mkRes tvA (some "a") panelAB [9, 1] 9,
     mkRes tvB (some "b") panelAB [2, 8] 8] [10, 20] 0

def c3wp : CelsiusRangeResult := c3wit.2.getD dummyCRR

theorem c3_amended_witness :
    (c3wp.targets.length ≤ c3wp.target_names.length ∧
     ∀ r ∈ c3wp.results,
       r.trigger_sets.length ≤ r.activation.length ∧
       r.trigger_sets.length ≤ r.activation_se.length ∧
       r.trigger_sets.length ≤ r.rbs_unbinding.length ∧
       r.trigger_sets.length ≤ r.aug_unbinding.length ∧
       r.trigger_sets.length ≤ r.post_aug_unbinding.length) ∧
    ((∃ st' s', setInferredTarget c3wit.1 c3wp tvB = (st', s', none)) ↔
      (tvB ∈ c3wp.targets ∧
       ∀ r ∈ c3wp.results, ∃ ts ∈ r.trigger_sets,
         matchesTS ts tvB = true)) :=
  ⟨⟨by decide, by decide⟩,
    c3_amended c3wit.1 c3wp tvB (by decide) (by decide)⟩

def c4r1 : ToeholdResult := mkRes tvA (some "a") panelAB [9, 1] 9

/-- A temperature whose panel lacks `"BBB"` but whose own target is
`tvB` (the compiled core computed it from its own data; `crt.py` takes the
field as given). -/
def c4r2 : ToeholdResult := mkRes tvB (some "b") [["AAA"]] [2] 8

def c4built : Store × Option CelsiusRangeResult :=
  crrInit [[("Model", "m")]] [c4r1, c4r2] [10, 20] 0

def c4p : CelsiusRangeResult := c4built.2.getD dummyCRR

def c4out : Store × CelsiusRangeResult × Option PyErr :=
  setInferredTarget c4built.1 c4p tvB

/-- C4 counterexample: retargeting to `tvB` fails at the second
temperature (no match in its trigger sets), but the operation is **not**
atomic: the failed assignment has already overwritten `inferred_target`,
its name, the shared metadata dict and `pretty_meta`, and left a
partially rebuilt activation series. -/
theorem c4_counterexample :
    c4built.2 = some c4p ∧
    c4out.2.2 = some PyErr.stopIteration ∧
    c4out.2.1.inferred_target ≠ c4p.inferred_target ∧
    c4out.2.1.inferred_target_name ≠ c4p.inferred_target_name ∧
    c4out.2.1.activation ≠ c4p.activation ∧
    c4out.2.1.pretty_meta ≠ c4p.pretty_meta ∧
    c4out.1.read c4p.metaRef ≠ c4built.1.read c4p.metaRef := by
  refine ⟨by decide, by decide, by decide, by decide, by decide, by decide,
    by decide⟩

theorem c4_amended_witness :
    (tvB ∉ c3p.targets) ∧
    setInferredTarget c3built.1 c3p tvB
      = (c3built.1, c3p, some PyErr.valueError) :=
  ⟨by decide, c4_amended c3built.1 c3p tvB (by decide)⟩

theorem setterDict_idem (d : MetaD) (v : TVal) (nm : Option String) :
    setterDict (setterDict d v nm) v nm = setterDict d v nm := by
  set a := renderName nm
  set b := TVal.render v
  set D1 := dictSet d "Target name" a with hD1
  set D := dictSet D1 "Target sequence" b with hD
  have hne : ("Target sequence" : String) ≠ "Target name" := by decide
  have h1 : dictSet D "Target name" a = D := by
    apply dictSet_id
    · rw [hD]
      exact dictSet_any_of_any (dictSet_any_self d "Target name" a)
    · intro p hp hpk
      have hpns : p.1 ≠ "Target sequence" := by rw [hpk]; decide
      have hpD1 : p ∈ D1 := dictSet_mem_of_ne (hD ▸ hp) hpns
      exact dictSet_eq_of_mem_self hpD1 hpk
  have h2 : dictSet D "Target sequence" b = D := by
    apply dictSet_id
    · rw [hD]
      exact dictSet_any_self D1 "Target sequence" b
    · intro p hp hpk
      exact dictSet_eq_of_mem_self (hD ▸ hp) hpk
  show dictSet (dictSet D "Target name" a) "Target sequence" b = D
  rw [h1, h2]

/-- C8 amended: re-assigning `inferred_target` to its own current value
after a successful retarget is a no-op — the store and every field of the
object (metadata, `pretty_meta`, all seven derived series) come out
unchanged.  Assigning `inferred_target_name`, however, re-targets to the
target of the *first* temperature whose `target_name` equals the assigned
name; when distinct targets share a name (e.g. no names were supplied, so
every `target_name` is `None`) this is **not** a no-op — see the
counterexample. -/
theorem c8_amended (st : Store) (s : CelsiusRangeResult) (X : TVal)
    (st1 : Store) (s1 : CelsiusRangeResult)
    (href : s.metaRef < st.length)
    (h : setInferredTarget st s X = (st1, s1, none)) :
    setInferredTarget st1 s1 s1.inferred_target = (st1, s1, none) ∧
    (∀ v i t, findIdxP (fun n => n = v) s1.target_names = some i →
      s1.targets[i]? = some t →
      setInferredTargetName st1 s1 v = setInferredTarget st1 s1 t) := by
  constructor
  · rcases setter_success_inv h with ⟨idx, nm, rows, hfi, hnm, hom, hst, hs⟩
    subst hst hs
    have hread :
        ((st.write s.metaRef
            (setterDict (st.read s.metaRef) X nm)).read s.metaRef)
          = setterDict (st.read s.metaRef) X nm :=
      store_read_write_self href _
    have heval := @setter_eval
      (st.write s.metaRef (setterDict (st.read s.metaRef) X nm))
      (setterState s X nm (setterDict (st.read s.metaRef) X nm) rows)
      X idx nm rows hfi hnm hom
    rw [show (setterState s X nm
          (setterDict (st.read s.metaRef) X nm) rows).metaRef
        = s.metaRef from rfl] at heval
    rw [hread, setterDict_idem] at heval
    rw [show (setterState s X nm
          (setterDict (st.read s.metaRef) X nm) rows).inferred_target
        = X from rfl]
    rw [heval, store_write_write]
    rfl
  · intro v i t hi ht
    simp [setInferredTargetName, hi, ht]

def c8r1 : ToeholdResult := mkRes tvA none panelAB [9, 1] 9

def c8r2 : ToeholdResult := mkRes tvB none panelAB [2, 8] 8

def c8built : Store × Option CelsiusRangeResult :=
  crrInit [[("Model", "m")]] [c8r1, c8r2, c8r2] [10, 20, 30] 0

def c8p : CelsiusRangeResult := c8built.2.getD dummyCRR

def c8out : Store × CelsiusRangeResult × Option PyErr :=
  setInferredTargetName c8built.1 c8p c8p.inferred_target_name

/-- C8 counterexample: with no names supplied every `target_name` is
`None`; the inferred target is the mode `tvB`, but assigning
`inferred_target_name` to its current value (`None`) resolves through
`self.targets[self.target_names.index(None)]` to the **first**
temperature's target `tvA` and retargets to it, changing
`inferred_target` and the derived series — not a no-op. -/
theorem c8_counterexample :
    c8built.2 = some c8p ∧
    c8p.inferred_target = tvB ∧
    c8p.inferred_target_name = none ∧
    c8out.2.2 = none ∧
    c8out.2.1.inferred_target = tvA ∧
    c8out.2.1.activation ≠ c8p.activation := by
  refine ⟨by decide, by decide, by decide, by decide, by decide, by decide⟩

def c8w : Store × CelsiusRangeResult × Option PyErr :=
  setInferredTarget c3wit.1 c3wp tvB

theorem c8_amended_witness :
    (c3wp.metaRef < c3wit.1.length ∧
     setInferredTarget c3wit.1 c3wp tvB = (c8w.1, c8w.2.1, none)) ∧
    (setInferredTarget c8w.1 c8w.2.1 c8w.2.1.inferred_target
        = (c8w.1, c8w.2.1, none) ∧
     (∀ v i t, findIdxP (fun n => n = v) c8w.2.1.target_names = some i →
       c8w.2.1.targets[i]? = some t →
       setInferredTargetName c8w.1 c8w.2.1 v
         = setInferredTarget c8w.1 c8w.2.1 t)) := by
  have h2 : c8w.2.2 = none := by decide
  have h : setInferredTarget c3wit.1 c3wp tvB = (c8w.1, c8w.2.1, none) := by
    have he : setInferredTarget c3wit.1 c3wp tvB
        = (c8w.1, c8w.2.1, c8w.2.2) := rfl
    rw [he, h2]
  exact ⟨⟨by decide, h⟩, c8_amended c3wit.1 c3wp tvB c8w.1 c8w.2.1
    (by decide) h⟩

/-! ## Slicing and construction -/

theorem crrInit_ok {st : Store} {results : List ToeholdResult}
    {range : List ℚ} {ρ : Nat} {st' : Store} {c : CelsiusRangeResult}
    (h : crrInit st results range ρ = (st', some c)) :
    c.results = results ∧ c.celsius_range = range ∧ c.metaRef = ρ ∧
    c.targets = results.map (fun r => r.target) ∧
    c.target_names = results.map (fun r => r.target_name) ∧
    pyMaxByCount (results.map (fun r => r.target))
      = some c.inferred_target := by
  unfold crrInit at h
  dsimp only at h
  cases hm : pyMaxByCount (results.map (fun r => r.target)) with
  | none =>
    rw [hm] at h
    exact absurd (congrArg (fun t => t.2) h) (by simp)
  | some mode =>
    rw [hm] at h
    dsimp only at h
    rcases hset : setInferredTarget st
        { results := results, celsius_range := range, metaRef := ρ,
          targets := results.map (fun r => r.target),
          target_names := results.map (fun r => r.target_name),
          pretty_meta := "", inferred_target := TVal.seq "",
          inferred_target_name := none,
          activation := [], rbs_unbinding := [], aug_unbinding := [],
          post_aug_unbinding := [], specificity := [], activation_se := [],
          specificity_se := [] } mode with ⟨st2, s2, e⟩
    rw [hset] at h
    cases e with
    | none =>
      have hc : some s2 = some c := congrArg (fun t => t.2) h
      simp only [Option.some.injEq] at hc
      subst hc
      rcases setter_success_inv hset with ⟨idx, nm, rows, _, _, _, _, hs⟩
      subst hs
      exact ⟨rfl, rfl, rfl, rfl, rfl, rfl⟩
    | some e =>
      exact absurd (congrArg (fun t => t.2) h) (by simp)

theorem pySlice_comp {α : Type} (l : List α) (a b c d : Nat) :
    pySlice (pySlice l a b) c d = pySlice l (a + c) (min b (a + d)) := by
  unfold pySlice
  rw [List.drop_take, List.drop_drop, List.take_take]
  congr 1
  omega

/-- C9: slicing a `CelsiusRangeResult` with `[a:b]` (when the constructor
of the slice succeeds) restricts `celsius_range` and `results` to
`[a:b]`, derives the slice's own `inferred_target` as the mode of the
restricted targets — an expression that does not consult the parent's
current inferred target, as the fourth conjunct states — and slicing
twice equals slicing once with the composed bounds, up to the class's own
equality (`__eq__`: range, results, inferred target). -/
theorem c9_slicing (st : Store) (s : CelsiusRangeResult) (a b : Nat)
    (st1 : Store) (c1 : CelsiusRangeResult)
    (h1 : getitemSlice st s a b = (st1, some c1)) :
    c1.celsius_range = pySlice s.celsius_range a b ∧
    c1.results = pySlice s.results a b ∧
    pyMaxByCount (c1.results.map (fun r => r.target))
      = some c1.inferred_target ∧
    (∀ t n, getitemSlice st
        { s with inferred_target := t, inferred_target_name := n } a b
      = getitemSlice st s a b) ∧
    (∀ c d st2 c2 st3 c3,
      getitemSlice st1 c1 c d = (st2, some c2) →
      getitemSlice st s (a + c) (min b (a + d)) = (st3, some c3) →
      crrEqv c2 c3) := by
  rcases crrInit_ok h1 with ⟨hres, hrange, _, _, _, hmode⟩
  refine ⟨hrange, hres, by rw [hres]; exact hmode, fun t n => rfl, ?_⟩
  intro c d st2 c2 st3 c3 h2 h3
  rcases crrInit_ok h2 with ⟨hres2, hrange2, _, _, _, hmode2⟩
  rcases crrInit_ok h3 with ⟨hres3, hrange3, _, _, _, hmode3⟩
  have hr : c2.results = c3.results := by
    rw [hres2, hres3, hres, pySlice_comp]
  have hg : c2.celsius_range = c3.celsius_range := by
    rw [hrange2, hrange3, hrange, pySlice_comp]
  refine ⟨hg, hr, ?_⟩
  rw [hres, pySlice_comp, hmode3] at hmode2
  exact ((Option.some.injEq _ _).mp hmode2).symm

def c9built : Store × Option CelsiusRangeResult :=
  crrInit [[("Model", "m")]]
    [mkRes tvA (some "a") panelAB [9, 1] 9,
     mkRes tvB (some "b") panelAB [2, 8] 8,
     mkRes tvB (some "b") panelAB [3, 7] 7] [10, 20, 30] 0

def c9p : CelsiusRangeResult := c9built.2.getD dummyCRR

def c9s : Store × Option CelsiusRangeResult := getitemSlice c9built.1 c9p 0 2

def c9c : CelsiusRangeResult := c9s.2.getD dummyCRR

theorem c9_slicing_witness :
    getitemSlice c9built.1 c9p 0 2 = (c9s.1, some c9c) ∧
    (c9c.celsius_range = pySlice c9p.celsius_range 0 2 ∧
     c9c.results = pySlice c9p.results 0 2 ∧
     pyMaxByCount (c9c.results.map (fun r => r.target))
       = some c9c.inferred_target ∧
     (∀ t n, getitemSlice c9built.1
         { c9p with inferred_target := t, inferred_target_name := n } 0 2
       = getitemSlice c9built.1 c9p 0 2) ∧
     (∀ c d st2 c2 st3 c3,
       getitemSlice c9s.1 c9c c d = (st2, some c2) →
       getitemSlice c9built.1 c9p (0 + c) (min 2 (0 + d)) = (st3, some c3) →
       crrEqv c2 c3)) := by
  have h2 : c9s.2 = some c9c := by decide
  have h : getitemSlice c9built.1 c9p 0 2 = (c9s.1, some c9c) := by
    have he : getitemSlice c9built.1 c9p 0 2 = (c9s.1, c9s.2) := rfl
    rw [he, h2]
  exact ⟨h, c9_slicing c9built.1 c9p 0 2 c9s.1 c9c h⟩

/-! ## The shared metadata dict (frame effect of slicing and copying) -/

/-- The parent sweep result for the frame-effect claim, retargeted to
`tvA` while the mode of its (and any `[1:3]` slice's) targets is
`tvB`. -/
def c10ret : Store × CelsiusRangeResult × Option PyErr :=
  setInferredTarget c9built.1 c9p tvA

def c10st : Store := c10ret.1

def c10p : CelsiusRangeResult := c10ret.2.1

def c10slice : Store × Option CelsiusRangeResult :=
  getitemSlice c10st c10p 1 3

/-- C10: `__getitem__` (slicing) and `copy()` pass `self.meta` — the same
dict object — to the new `CelsiusRangeResult`; the slice therefore shares
the parent's metadata reference, and because its construction assigns a
default inferred target (here the slice's mode `tvB`, different from the
parent's current `tvA`), building the slice overwrites the
"Target name"/"Target sequence" entries of the shared dict: the parent's
`meta` observably changes, and the parent's stored `pretty_meta` — in sync
before the slice was taken — is stale afterwards, until the parent is next
retargeted. -/
theorem c10_shared_meta :
    c10ret.2.2 = none ∧
    c10p.inferred_target = tvA ∧
    (c10slice.2.map (fun c => c.metaRef)) = some c10p.metaRef ∧
    (c10slice.2.map (fun c => c.inferred_target)) = some tvB ∧
    c10slice.1.read c10p.metaRef ≠ c10st.read c10p.metaRef ∧
    c10p.pretty_meta = renderMeta (c10st.read c10p.metaRef) ∧
    c10p.pretty_meta ≠ renderMeta (c10slice.1.read c10p.metaRef) ∧
    (setInferredTarget c10slice.1 c10p tvA).2.2 = none ∧
    (setInferredTarget c10slice.1 c10p tvA).2.1.pretty_meta
      = renderMeta
          ((setInferredTarget c10slice.1 c10p tvA).1.read c10p.metaRef) ∧
    ((crrCopy c10st c10p).2.map (fun c => c.metaRef))
      = some c10p.metaRef := by
  refine ⟨by decide, by decide, by decide, by decide, by decide, by decide,
    by decide, by decide, by decide, by decide⟩

/-! ## `CelsiusRangeTest.run` versus `CelsiusRangeTest.generate`

The per-temperature work
`self._adjust_temperature(celsius).run(max_size, n_samples, n_nodes)` runs
the compiled `thtools.core` engine; it is abstracted as an opaque
deterministic `step : ℚ → ToeholdResult` (`max_size`/`n_samples`/`n_nodes`
are fixed inside `step`, as the loop passes the same values each
iteration).  `generate` yields one completed `ToeholdResult` per
temperature, in `celsius_range` order, building the `chunks` list as it
goes; after the loop it takes `chunks[-1].meta`, deletes the four
per-temperature keys (`del` raising `KeyError` if one is missing,
`chunks[-1]` raising `IndexError` on an empty range) and constructs the
`CelsiusRangeResult` stored in `self.result`.  The dict Python passes on
is the last result's own `meta` object; per-result dicts are held by
value in this embedding, so the model materializes it as a fresh store
cell (`st ++ [m]`, referenced by `st.length`) for the constructor to
share and mutate.  `run` is literally
`for _ in self.generate(...): pass; return self.result`. -/

def genChunks (step : ℚ → ToeholdResult) :
    List ℚ → List ToeholdResult → List ToeholdResult
  | [], chunks => chunks
  | c :: rest, chunks => genChunks step rest (chunks ++ [step c])

/-- The outcome of fully draining `CelsiusRangeTest.generate`: the
sequence of yielded results and, when no exception interrupts the
epilogue, the final store, the `meta` attribute and the
`CelsiusRangeResult` stored in `self.result`. -/
structure GenOutcome where
  yields : List ToeholdResult
  final : Option (Store × MetaD × CelsiusRangeResult)

def crtGenerate (st : Store) (celsius_range : List ℚ)
    (step : ℚ → ToeholdResult) : GenOutcome :=
  let chunks := genChunks step celsius_range []
  match chunks.getLast? with
  | none => { yields := chunks, final := none }
  | some last =>
    match (((delKey last.meta "Temperature /°C").bind
        (fun m => delKey m "Specificity %")).bind
        (fun m => delKey m "Specificity SE")).bind
        (fun m => delKey m "Runtime /s") with
    | none => { yields := chunks, final := none }
    | some m =>
      match crrInit (st ++ [m]) chunks celsius_range st.length with
      | (st2, some res) => { yields := chunks, final := some (st2, m, res) }
      | (_, none) => { yields := chunks, final := none }

/-- `CelsiusRangeTest.run`: drain `generate`, return `self.result`. -/
def crtRun (st : Store) (celsius_range : List ℚ)
    (step : ℚ → ToeholdResult) : Option CelsiusRangeResult :=
  (crtGenerate st celsius_range step).final.map (fun t => t.2.2)

theorem genChunks_eq (step : ℚ → ToeholdResult) (range : List ℚ)
    (acc : List ToeholdResult) :
    genChunks step range acc = acc ++ range.map step := by
  induction range generalizing acc with
  | nil => simp [genChunks]
  | cons c rest ih =>
    rw [genChunks, ih]
    simp

/-- C5: `run` is equivalent to fully draining `generate` with the same
arguments: the generator yields exactly one `ToeholdResult` per
temperature, in `celsius_range` order (`yields[i]` is the step result for
`celsius_range[i]`), and when the drain finishes, the finished
`CelsiusRangeResult` holds exactly those results over that range and is
what `run` returns (and `run` raises whenever the drain does). -/
theorem c5_run_generate (st : Store) (range : List ℚ)
    (step : ℚ → ToeholdResult) :
    (crtGenerate st range step).yields = range.map step ∧
    ((crtGenerate st range step).yields.length = range.length ∧
     ∀ i : Nat, ((crtGenerate st range step).yields)[i]?
       = (range[i]?).map step) ∧
    (∀ st2 m res, (crtGenerate st range step).final = some (st2, m, res) →
      crtRun st range step = some res ∧
      res.results = (crtGenerate st range step).yields ∧
      res.celsius_range = range) ∧
    ((crtGenerate st range step).final = none →
      crtRun st range step = none) := by
  have hyields : (crtGenerate st range step).yields = range.map step := by
    unfold crtGenerate
    dsimp only
    rw [genChunks_eq, List.nil_append]
    split
    · rfl
    · split
      · rfl
      · split
        · rfl
        · rfl
  refine ⟨hyields, ⟨by rw [hyields]; simp, ?_⟩, ?_, ?_⟩
  · intro i
    rw [hyields]
    simp
  · intro st2 m res hfin
    refine ⟨?_, ?_, ?_⟩
    · unfold crtRun
      rw [hfin]
      rfl
    · rw [hyields]
      unfold crtGenerate at hfin
      dsimp only at hfin
      cases hlast : (genChunks step range []).getLast? with
      | none => rw [hlast] at hfin; simp at hfin
      | some last =>
        rw [hlast] at hfin
        dsimp only at hfin
        cases hdel : (((delKey last.meta "Temperature /°C").bind
            (fun m => delKey m "Specificity %")).bind
            (fun m => delKey m "Specificity SE")).bind
            (fun m => delKey m "Runtime /s") with
        | none => rw [hdel] at hfin; simp at hfin
        | some mm =>
          rw [hdel] at hfin
          dsimp only at hfin
          rcases hinit : crrInit (st ++ [mm]) (genChunks step range []) range
              st.length with ⟨stx, o⟩
          rw [hinit] at hfin
          cases o with
          | none => simp at hfin
          | some r =>
            simp only [GenOutcome.mk.injEq, Option.some.injEq,
              Prod.mk.injEq] at hfin
            rcases hfin with ⟨hst, hmm, hr⟩
            subst hr
            rw [(crrInit_ok hinit).1, genChunks_eq, List.nil_append]
    · unfold crtGenerate at hfin
      dsimp only at hfin
      cases hlast : (genChunks step range []).getLast? with
      | none => rw [hlast] at hfin; simp at hfin
      | some last =>
        rw [hlast] at hfin
        dsimp only at hfin
        cases hdel : (((delKey last.meta "Temperature /°C").bind
            (fun m => delKey m "Specificity %")).bind
            (fun m => delKey m "Specificity SE")).bind
            (fun m => delKey m "Runtime /s") with
        | none => rw [hdel] at hfin; simp at hfin
        | some mm =>
          rw [hdel] at hfin
          dsimp only at hfin
          rcases hinit : crrInit (st ++ [mm]) (genChunks step range []) range
              st.length with ⟨stx, o⟩
          rw [hinit] at hfin
          cases o with
          | none => simp at hfin
          | some r =>
            simp only [GenOutcome.mk.injEq, Option.some.injEq,
              Prod.mk.injEq] at hfin
            rcases hfin with ⟨hst, hmm, hr⟩
            subst hr
            exact (crrInit_ok hinit).2.1
  · intro hfin
    unfold crtRun
    rw [hfin]
    rfl

/-- A per-temperature result whose metadata holds the four keys
`generate` deletes at the aggregate level. -/
def c5res : ToeholdResult :=
  { mkRes tvA (some "a") [["AAA"]] [9] 9 with
    meta := [("Temperature /°C", "10"), ("Specificity %", "90"),
             ("Specificity SE", "1"), ("Runtime /s", "2"), ("Model", "m")] }

def c5gen : GenOutcome := crtGenerate [] [10] (fun _ => c5res)

def c5t : Store × MetaD × CelsiusRangeResult :=
  c5gen.final.getD ([], [], dummyCRR)

theorem c5_run_generate_witness :
    c5gen.final = some (c5t.1, c5t.2.1, c5t.2.2) ∧
    (crtRun [] [10] (fun _ => c5res) = some c5t.2.2 ∧
     c5t.2.2.results = c5gen.yields ∧
     c5t.2.2.celsius_range = [10]) := by
  have h2 : c5gen.final = some c5t := by decide
  have h : c5gen.final = some (c5t.1, c5t.2.1, c5t.2.2) := h2
  exact ⟨h, (c5_run_generate [] [10] (fun _ => c5res)).2.2.1
    c5t.1 c5t.2.1 c5t.2.2 h⟩

theorem c2_retarget_series_witness :
    (setInferredTarget c3wit.1 c3wp tvB = (c8w.1, c8w.2.1, none) ∧
     c3wp.results[0]? = some (mkRes tvA (some "a") panelAB [9, 1] 9)) ∧
    (((mkRes tvA (some "a") panelAB [9, 1] 9).target ≠ tvB →
       c8w.2.1.specificity[0]? = some 0 ∧
       c8w.2.1.specificity_se[0]? = some 0) ∧
     ((mkRes tvA (some "a") panelAB [9, 1] 9).target = tvB →
       c8w.2.1.specificity[0]?
         = some (mkRes tvA (some "a") panelAB [9, 1] 9).specificity ∧
       c8w.2.1.specificity_se[0]?
         = some (mkRes tvA (some "a") panelAB [9, 1] 9).specificity_se) ∧
     ∃ j, findIdxP (fun ts => matchesTS ts tvB)
         (mkRes tvA (some "a") panelAB [9, 1] 9).trigger_sets = some j ∧
       c8w.2.1.activation[0]?
         = (mkRes tvA (some "a") panelAB [9, 1] 9).activation[j]? ∧
       c8w.2.1.activation_se[0]?
         = (mkRes tvA (some "a") panelAB [9, 1] 9).activation_se[j]? ∧
       c8w.2.1.rbs_unbinding[0]?
         = (mkRes tvA (some "a") panelAB [9, 1] 9).rbs_unbinding[j]? ∧
       c8w.2.1.aug_unbinding[0]?
         = (mkRes tvA (some "a") panelAB [9, 1] 9).aug_unbinding[j]? ∧
       c8w.2.1.post_aug_unbinding[0]?
         = (mkRes tvA (some "a") panelAB [9, 1] 9).post_aug_unbinding[j]?) := by
  have h2 : c8w.2.2 = none := by decide
  have h : setInferredTarget c3wit.1 c3wp tvB = (c8w.1, c8w.2.1, none) := by
    have he : setInferredTarget c3wit.1 c3wp tvB
        = (c8w.1, c8w.2.1, c8w.2.2) := rfl
    rw [he, h2]
  exact ⟨⟨h, by decide⟩,
    c2_retarget_series c3wit.1 c3wp tvB c8w.1 c8w.2.1 h 0
      (mkRes tvA (some "a") panelAB [9, 1] 9) (by decide)⟩
